import Mathlib

/-!
Shallow embedding of the live-aggregation core of VTrafmap (`src/app.py`):
OAuth2 token caching (`get_access_token`), per-cell fetch with bounded
retry (`fetch_cell`), grid partitioning of the bounding box, and the
merge / deduplication / normalization pipeline of `fetch_positions`.
Machine floats are modelled as exact rationals; JSON objects as
structures of `Option`-typed fields, with Python's `dict.get(k, d)`
rendered as `Option.getD`.
-/

namespace VTrafmap

/-- Fallback colors per transport type (FALLBACK_COLORS, app.py lines 54-60). -/
def FALLBACK_COLORS : List (String × String) :=
  [("tram", "#0074BF"), ("bus", "#E4002B"), ("train", "#A855F7"),
   ("ferry", "#00E5FF"), ("unknown", "#0074BF")]

/-- Mapping from the API transportMode to the app's vehicle type
(TRANSPORT_MODE_MAP, app.py lines 63-72). -/
def TRANSPORT_MODE_MAP : List (String × String) :=
  [("tram", "tram"), ("bus", "bus"), ("train", "train"), ("ferry", "boat"),
   ("ship", "boat"), ("taxi", "bus"), ("unknown", "tram"), ("none", "bus")]

/-- Python dict.get(key, default) over an association list. -/
def dictGetD (d : List (String × String)) (k : String) (dflt : String) : String :=
  (d.lookup k).getD dflt

/-- Bounding-box constants (app.py lines 47-51). -/
def GBG_LOWER_LAT : ℚ := 57.55

/-- Lower longitude bound of the Gothenburg box. -/
def GBG_LOWER_LON : ℚ := 11.70

/-- Upper latitude bound of the Gothenburg box. -/
def GBG_UPPER_LAT : ℚ := 57.90

/-- Upper longitude bound of the Gothenburg box. -/
def GBG_UPPER_LON : ℚ := 12.25

/-- Grid size constant (app.py line 51). -/
def GRID_SIZE : ℕ := 4

/-- Nested line object of a raw upstream record (veh["line"]). -/
structure LineInfo where
  name : Option String
  transportMode : Option String
  backgroundColor : Option String
  foregroundColor : Option String
  isRealtimeJourney : Option Bool
deriving DecidableEq, Repr

/-- Empty line object, the default of veh.get("line", \x7b\x7d). -/
def emptyLine : LineInfo := ⟨none, none, none, none, none⟩

/-- Nested directionDetails object of a raw upstream record. -/
structure DirectionDetails where
  shortDirection : Option String
deriving DecidableEq, Repr

/-- Empty directionDetails object, the default of veh.get("directionDetails", \x7b\x7d). -/
def emptyDirectionDetails : DirectionDetails := ⟨none⟩

/-- Raw upstream vehicle record, the fields app.py reads. -/
structure RawVehicle where
  detailsReference : Option String
  latitude : Option ℚ
  longitude : Option ℚ
  line : Option LineInfo
  directionDetails : Option DirectionDetails
  direction : Option String
deriving DecidableEq, Repr

/-- veh.get("detailsReference", ""), as read at app.py lines 183 and 213. -/
def refOf (v : RawVehicle) : String := v.detailsReference.getD ""

/-- Line object of a record with Python's empty-dict default (app.py line 196). -/
def lineOf (v : RawVehicle) : LineInfo := v.line.getD emptyLine

/-- line_info.get("name", "") (app.py line 197). -/
def lineName (v : RawVehicle) : String := (lineOf v).name.getD ""

/-- Normalized public vehicle schema (app.py lines 216-228). -/
structure Vehicle where
  id : String
  lat : ℚ
  lon : ℚ
  line : String
  type : String
  color : String
  fgColor : String
  destination : String
  speed_kmh : ℚ
  bearing : ℚ
  isRealtime : Bool
deriving DecidableEq, Repr

/-- Python round(x, 6) on exact rationals (half-up on exact values; Python's
half-to-even tie rule on binary floats is not distinguished by any claim). -/
def round6 (q : ℚ) : ℚ := ((q * 1000000 + 1/2).floor : ℚ) / 1000000

/-- Rendering of a coordinate inside the synthesized id, modelling the
Python f-string interpolation of a float. -/
def ratRepr (q : ℚ) : String := toString q.num ++ "/" ++ toString q.den

/-- Normalization of one raw record (the loop body of app.py lines 190-228):
returns none exactly when the record is skipped by a continue. -/
def normalizeRecord (veh : RawVehicle) : Option Vehicle :=
  match veh.latitude, veh.longitude with
  | some lat, some lon =>
    let line_info := lineOf veh
    let line_name := line_info.name.getD ""
    if line_name = "" then none
    else
      let transport_mode := line_info.transportMode.getD "bus"
      let vtype := dictGetD TRANSPORT_MODE_MAP transport_mode "bus"
      let color := line_info.backgroundColor.getD (dictGetD FALLBACK_COLORS vtype "#E4002B")
      let fg_color := line_info.foregroundColor.getD "#ffffff"
      let direction_details := veh.directionDetails.getD emptyDirectionDetails
      let destination0 := direction_details.shortDirection.getD ""
      let destination := if destination0 = "" then veh.direction.getD "" else destination0
      let details_ref := veh.detailsReference.getD ""
      let vehicle_id :=
        if details_ref = "" then line_name ++ "_" ++ ratRepr lat ++ "_" ++ ratRepr lon
        else details_ref
      some { id := vehicle_id, lat := round6 lat, lon := round6 lon, line := line_name,
             type := vtype, color := color, fgColor := fg_color,
             destination := destination, speed_kmh := 0, bearing := 0,
             isRealtime := line_info.isRealtimeJourney.getD false }
  | _, _ => none

/-- The merge loop of app.py lines 180-185: an insertion-ordered dict
(association list) keyed by detailsReference, first-seen record kept,
records with an absent or empty reference never stored. The input list is
the concatenation of all cell results in arrival order. -/
def mergeAux : List (String × RawVehicle) → List RawVehicle → List (String × RawVehicle)
  | acc, [] => acc
  | acc, v :: vs =>
    if refOf v ≠ "" ∧ (∀ p ∈ acc, p.1 ≠ refOf v) then
      mergeAux (acc ++ [(refOf v, v)]) vs
    else mergeAux acc vs

/-- all_vehicles after the merge loop, starting from the empty dict. -/
def mergeVehicles (vehs : List RawVehicle) : List (String × RawVehicle) :=
  mergeAux [] vehs

/-- raw_vehicles = list(all_vehicles.values()) (app.py line 187). -/
def rawVehiclesOf (vehs : List RawVehicle) : List RawVehicle :=
  (mergeVehicles vehs).map Prod.snd

/-- processed: the merge followed by normalization (app.py lines 180-228). -/
def processedVehicles (vehs : List RawVehicle) : List Vehicle :=
  (rawVehiclesOf vehs).filterMap normalizeRecord

/-- Outcome of one upstream positions request inside fetch_cell: a JSON body,
an HTTP 429, or an exception (timeout, non-2xx raise_for_status, parse error). -/
inductive AttemptOutcome where
  | success (vehicles : List RawVehicle)
  | rateLimited
  | transientError
deriving DecidableEq, Repr

/-- Outcomes that are not a successful response. -/
def AttemptOutcome.isFailure : AttemptOutcome → Bool
  | .success _ => false
  | .rateLimited => true
  | .transientError => true

/-- The retry loop of fetch_cell (app.py lines 147-173), iterating over the
remaining attempt indices of range(3); carries the sleeps performed so far
(in seconds, exact) and the number of attempts made. Returns
(records, attempts made, sleeps). The function is total: an exception
outcome is absorbed, never propagated, matching the bare except. -/
def fetchCellGo (outcomes : ℕ → AttemptOutcome) :
    List ℕ → List ℚ → ℕ → List RawVehicle × ℕ × List ℚ
  | [], sleeps, made => ([], made, sleeps)
  | a :: rest, sleeps, made =>
    match outcomes a with
    | .success vs => (vs, made + 1, sleeps)
    | .rateLimited => fetchCellGo outcomes rest (sleeps ++ [3/10 * ((a : ℚ) + 1)]) (made + 1)
    | .transientError =>
      if a < 2 then fetchCellGo outcomes rest (sleeps ++ [3/10 * ((a : ℚ) + 1)]) (made + 1)
      else fetchCellGo outcomes rest sleeps (made + 1)

/-- fetch_cell for a given sequence of per-attempt upstream outcomes. -/
def fetch_cell (outcomes : ℕ → AttemptOutcome) : List RawVehicle × ℕ × List ℚ :=
  fetchCellGo outcomes [0, 1, 2] [] 0

/-- Token-manager state: _access_token and _token_expires (app.py lines 84-85);
none models Python's None (no token ever obtained). -/
structure TokenState where
  access_token : Option String
  token_expires : ℚ
deriving DecidableEq, Repr

/-- Outcome of the network refresh POST inside get_access_token: a JSON body
with access_token and expires_in (default 3600 applied by the caller), or a
failure (network error, non-2xx, malformed body). -/
inductive RefreshOutcome where
  | success (access_token : String) (expires_in : ℚ)
  | failure
deriving DecidableEq, Repr

/-- Result of one get_access_token call: the value returned, the token state
afterwards, and whether a network refresh request was issued. -/
structure TokenCallResult where
  returned : Option String
  state : TokenState
  didRefresh : Bool
deriving DecidableEq, Repr

/-- get_access_token (app.py lines 93-118) at time now: reuse the cached
token when it is truthy and expires more than 60 seconds in the future,
otherwise issue a refresh; on refresh failure return the previous token
(possibly none) and leave the state unchanged. -/
def get_access_token (st : TokenState) (now : ℚ) (r : RefreshOutcome) : TokenCallResult :=
  if st.access_token.getD "" ≠ "" ∧ now < st.token_expires - 60 then
    ⟨st.access_token, st, false⟩
  else
    match r with
    | .success tok expires_in => ⟨some tok, ⟨some tok, now + expires_in⟩, true⟩
    | .failure => ⟨st.access_token, st, true⟩

/-- Snapshot-cache state: _cached_vehicles, _last_fetch_time and
_last_fetch_count (app.py lines 78-81). -/
structure CacheState where
  cached_vehicles : List Vehicle
  last_fetch_time : ℚ
  last_fetch_count : ℕ
deriving DecidableEq, Repr

/-- fetch_positions (app.py lines 125-235): obtain a token (early return,
publishing nothing, when it is falsy), merge and normalize the cell results
(given as one list in arrival order), then publish the new snapshot.
Returns the cache state and the token state after the call. -/
def fetch_positions (tokenSt : TokenState) (now : ℚ) (r : RefreshOutcome)
    (cellResults : List RawVehicle) (fetchTime : ℚ) (cache : CacheState) :
    CacheState × TokenState :=
  let c := get_access_token tokenSt now r
  if c.returned.getD "" = "" then (cache, c.state)
  else
    let processed := processedVehicles cellResults
    (⟨processed, fetchTime, processed.length⟩, c.state)

/-- Latitude step of the grid (app.py line 135), for a general box and size. -/
def latStep (lowerLat upperLat : ℚ) (n : ℕ) : ℚ := (upperLat - lowerLat) / n

/-- Longitude step of the grid (app.py line 136). -/
def lonStep (lowerLon upperLon : ℚ) (n : ℕ) : ℚ := (upperLon - lowerLon) / n

/-- Membership in the closed cell (row, col) of the n×n grid, with the
bounds lat1, lat2, lon1, lon2 of app.py lines 143-146 (unrounded, exact
arithmetic). -/
def inCell (lowerLat upperLat lowerLon upperLon : ℚ) (n row col : ℕ) (lat lon : ℚ) : Prop :=
  lowerLat + row * latStep lowerLat upperLat n ≤ lat ∧
  lat ≤ lowerLat + row * latStep lowerLat upperLat n + latStep lowerLat upperLat n ∧
  lowerLon + col * lonStep lowerLon upperLon n ≤ lon ∧
  lon ≤ lowerLon + col * lonStep lowerLon upperLon n + lonStep lowerLon upperLon n

/-- Membership in the interior of the cell (row, col). -/
def inCellInterior (lowerLat upperLat lowerLon upperLon : ℚ) (n row col : ℕ)
    (lat lon : ℚ) : Prop :=
  lowerLat + row * latStep lowerLat upperLat n < lat ∧
  lat < lowerLat + row * latStep lowerLat upperLat n + latStep lowerLat upperLat n ∧
  lowerLon + col * lonStep lowerLon upperLon n < lon ∧
  lon < lowerLon + col * lonStep lowerLon upperLon n + lonStep lowerLon upperLon n

/-- Membership in the closed bounding box. -/
def inBBox (lowerLat upperLat lowerLon upperLon : ℚ) (lat lon : ℚ) : Prop :=
  lowerLat ≤ lat ∧ lat ≤ upperLat ∧ lowerLon ≤ lon ∧ lon ≤ upperLon

/-- Concrete raw record with coordinates and a line name but no
detailsReference (used for the claims about ref-less records). -/
def recNoRef : RawVehicle :=
  ⟨none, some 1, some 2, some ⟨some "5", some "tram", none, none, none⟩, none, none⟩

/-- Concrete raw record with reference "A" on line 7. -/
def recA : RawVehicle :=
  ⟨some "A", some 1, some 2, some ⟨some "7", some "tram", none, none, none⟩, none, none⟩

/-- Concrete raw record that duplicates reference "A" with different data. -/
def recA2 : RawVehicle :=
  ⟨some "A", some 3, some 4, some ⟨some "8", some "bus", none, none, none⟩, none, none⟩

/-- Concrete raw record with reference "B" on a ship line. -/
def recB : RawVehicle :=
  ⟨some "B", some 5, some 6, some ⟨some "9", some "ship", none, none, none⟩, none, none⟩

/-- Concrete raw record used for the color claims: a tram-line record
carrying neither a backgroundColor nor a foregroundColor. -/
def recTramNoColors : RawVehicle :=
  ⟨some "X", some 1, some 2, some ⟨some "7", some "tram", none, none, none⟩, none, none⟩

/-- The vehicle normalizeRecord produces from recTramNoColors. -/
def vehTramNoColors : Vehicle :=
  ⟨"X", round6 1, round6 2, "7", "tram", "#0074BF", "#ffffff", "", 0, 0, false⟩

/-! Helper lemmas about association-list lookup (the dict of the merge loop). -/

theorem lookup_append_left {l l' : List (String × RawVehicle)} {r : String} {w : RawVehicle}
    (h : l.lookup r = some w) : (l ++ l').lookup r = some w := by
  induction l with
  | nil => simp [List.lookup] at h
  | cons p t ih =>
    obtain ⟨k, b⟩ := p
    simp only [List.lookup, List.cons_append] at h ⊢
    cases hb : r == k with
    | true => simpa [hb] using h
    | false =>
      simp only [hb] at h ⊢
      exact ih h

theorem lookup_append_right {l l' : List (String × RawVehicle)} {r : String}
    (h : l.lookup r = none) : (l ++ l').lookup r = l'.lookup r := by
  induction l with
  | nil => simp
  | cons p t ih =>
    obtain ⟨k, b⟩ := p
    simp only [List.lookup, List.cons_append] at h ⊢
    cases hb : r == k with
    | true => simp [hb] at h
    | false =>
      simp only [hb] at h ⊢
      exact ih h

theorem lookup_eq_none_iff {l : List (String × RawVehicle)} {r : String} :
    l.lookup r = none ↔ ∀ p ∈ l, p.1 ≠ r := by
  induction l with
  | nil => simp [List.lookup]
  | cons p t ih =>
    obtain ⟨k, b⟩ := p
    simp only [List.lookup]
    by_cases hrk : r = k
    · subst hrk
      simp only [beq_self_eq_true, List.mem_cons, ne_eq]
      constructor
      · intro h
        exact absurd h (by simp)
      · intro h
        exact absurd (h (r, b) (Or.inl rfl) rfl) id
    · have hb : (r == k) = false := beq_false_of_ne hrk
      simp only [hb, List.mem_cons, ne_eq]
      constructor
      · intro h q hq
        rcases hq with rfl | hq
        · exact fun he => hrk he.symm
        · exact ih.mp h q hq
      · intro h
        exact ih.mpr fun q hq => h q (Or.inr hq)

/-! Helper lemmas about the merge loop. -/

theorem mergeAux_mem : ∀ (vs : List RawVehicle) (acc : List (String × RawVehicle))
    (p : String × RawVehicle), p ∈ mergeAux acc vs →
    p ∈ acc ∨ (p.2 ∈ vs ∧ p.1 = refOf p.2 ∧ refOf p.2 ≠ "")
  | [], _, _, h => Or.inl h
  | v :: vs, acc, p, h => by
    rw [mergeAux] at h
    split at h
    · rcases mergeAux_mem vs _ p h with h' | h'
      · rcases List.mem_append.mp h' with h'' | h''
        · exact Or.inl h''
        · rename_i hcond
          rcases List.mem_singleton.mp h'' with rfl
          exact Or.inr ⟨List.mem_cons_self _ _, rfl, hcond.1⟩
      · exact Or.inr ⟨List.mem_cons_of_mem _ h'.1, h'.2⟩
    · rcases mergeAux_mem vs _ p h with h' | h'
      · exact Or.inl h'
      · exact Or.inr ⟨List.mem_cons_of_mem _ h'.1, h'.2⟩

theorem mergeAux_keys_nodup : ∀ (vs : List RawVehicle) (acc : List (String × RawVehicle)),
    (acc.map Prod.fst).Nodup → ((mergeAux acc vs).map Prod.fst).Nodup
  | [], _, h => h
  | v :: vs, acc, h => by
    rw [mergeAux]
    split
    · rename_i hcond
      refine mergeAux_keys_nodup vs _ ?_
      simp only [List.map_append, List.map_cons, List.map_nil]
      rw [List.nodup_append]
      refine ⟨h, List.nodup_singleton _, ?_⟩
      intro a ha
      simp only [List.mem_singleton]
      rcases List.mem_map.mp ha with ⟨q, hq, rfl⟩
      exact fun he => hcond.2 q hq (he ▸ rfl)
    · exact mergeAux_keys_nodup vs _ h

theorem mergeAux_lookup_mono : ∀ (vs : List RawVehicle) (acc : List (String × RawVehicle))
    (r : String) (w : RawVehicle), acc.lookup r = some w →
    (mergeAux acc vs).lookup r = some w
  | [], _, _, _, h => h
  | v :: vs, acc, r, w, h => by
    rw [mergeAux]
    split
    · exact mergeAux_lookup_mono vs _ r w (lookup_append_left h)
    · exact mergeAux_lookup_mono vs _ r w h

theorem mergeAux_lookup_none : ∀ (vs : List RawVehicle) (acc : List (String × RawVehicle))
    (r : String), r ≠ "" → acc.lookup r = none →
    (mergeAux acc vs).lookup r = vs.find? (fun v => refOf v == r)
  | [], acc, r, _, h => by simpa [mergeAux, List.find?] using h
  | v :: vs, acc, r, hr, h => by
    rw [mergeAux]
    by_cases hvr : refOf v = r
    · rw [if_pos ⟨hvr ▸ hr, fun p hp => hvr ▸ lookup_eq_none_iff.mp h p hp⟩]
      have hl : (acc ++ [(refOf v, v)]).lookup r = some v := by
        rw [lookup_append_right h]
        simp [List.lookup, hvr]
      rw [mergeAux_lookup_mono vs _ r v hl]
      simp [List.find?, hvr]
    · have hfind : (v :: vs).find? (fun x => refOf x == r) = vs.find? (fun x => refOf x == r) := by
        simp [List.find?, beq_false_of_ne hvr]
      rw [hfind]
      split
      · refine mergeAux_lookup_none vs _ r hr ?_
        rw [lookup_append_right h]
        simp [List.lookup, beq_false_of_ne fun he => hvr he.symm]
      · exact mergeAux_lookup_none vs _ r hr h

theorem merge_keys_nodup (vehs : List RawVehicle) :
    ((mergeVehicles vehs).map Prod.fst).Nodup :=
  mergeAux_keys_nodup vehs [] (by simp)

theorem merge_lookup_eq_find (vehs : List RawVehicle) (r : String) (hr : r ≠ "") :
    (mergeVehicles vehs).lookup r = vehs.find? (fun v => refOf v == r) :=
  mergeAux_lookup_none vehs [] r hr rfl

theorem merge_entry_spec (vehs : List RawVehicle) :
    ∀ p ∈ mergeVehicles vehs, p.2 ∈ vehs ∧ p.1 = refOf p.2 ∧ refOf p.2 ≠ "" := by
  intro p hp
  rcases mergeAux_mem vehs [] p hp with h | h
  · simp at h
  · exact h

/-! Helper lemmas about normalization. -/

theorem normalizeRecord_some_spec (v : RawVehicle) (u : Vehicle)
    (h : normalizeRecord v = some u) :
    u.line = lineName v ∧ lineName v ≠ "" ∧
    u.type = dictGetD TRANSPORT_MODE_MAP ((lineOf v).transportMode.getD "bus") "bus" ∧
    u.color = (lineOf v).backgroundColor.getD (dictGetD FALLBACK_COLORS u.type "#E4002B") ∧
    u.fgColor = (lineOf v).foregroundColor.getD "#ffffff" ∧
    (refOf v ≠ "" → u.id = refOf v) ∧
    v.latitude ≠ none ∧ v.longitude ≠ none := by
  cases hlat : v.latitude with
  | none => simp [normalizeRecord, hlat] at h
  | some lat =>
    cases hlon : v.longitude with
    | none => simp [normalizeRecord, hlat, hlon] at h
    | some lon =>
      simp only [normalizeRecord, hlat, hlon] at h
      split at h
      · exact absurd h (by simp)
      · rename_i hname
        rw [Option.some.injEq] at h
        subst h
        refine ⟨rfl, hname, rfl, rfl, rfl, ?_, by simp, by simp⟩
        intro hr
        simp only [refOf] at hr ⊢
        simp [if_neg hr]

theorem normalizeRecord_eq_none_iff (v : RawVehicle) :
    normalizeRecord v = none ↔
      v.latitude = none ∨ v.longitude = none ∨ lineName v = "" := by
  cases hlat : v.latitude with
  | none => simp [normalizeRecord, hlat]
  | some lat =>
    cases hlon : v.longitude with
    | none => simp [normalizeRecord, hlat, hlon]
    | some lon =>
      simp only [normalizeRecord, hlat, hlon]
      split
      · rename_i hname
        simp [lineName, lineOf, hname]
        exact hname
      · rename_i hname
        simp [lineName, lineOf, hname]
        exact hname

theorem normalizeRecord_id (v : RawVehicle) (u : Vehicle)
    (h : normalizeRecord v = some u) (hr : refOf v ≠ "") : u.id = refOf v :=
  (normalizeRecord_some_spec v u h).2.2.2.2.2.1 hr

theorem normalizeRecord_line_ne (v : RawVehicle) (u : Vehicle)
    (h : normalizeRecord v = some u) : u.line ≠ "" := by
  have hs := normalizeRecord_some_spec v u h
  rw [hs.1]
  exact hs.2.1

theorem filterMap_ids_sublist : ∀ (m : List (String × RawVehicle)),
    (∀ p ∈ m, refOf p.2 = p.1 ∧ p.1 ≠ "") →
    (((m.map Prod.snd).filterMap normalizeRecord).map Vehicle.id).Sublist (m.map Prod.fst)
  | [], _ => by simp
  | p :: m, h => by
    have hp := h p (List.mem_cons_self _ _)
    have hm : ∀ q ∈ m, refOf q.2 = q.1 ∧ q.1 ≠ "" :=
      fun q hq => h q (List.mem_cons_of_mem _ hq)
    simp only [List.map_cons, List.filterMap_cons]
    cases hn : normalizeRecord p.2 with
    | none => exact (filterMap_ids_sublist m hm).cons _
    | some u =>
      have hid : u.id = p.1 := by
        rw [normalizeRecord_id p.2 u hn (hp.1 ▸ hp.2), hp.1]
      simp only [List.map_cons, hid]
      exact (filterMap_ids_sublist m hm).cons₂ _

/-! Helper lemmas about the token manager. -/

theorem get_access_token_cached (st : TokenState) (now : ℚ) (r : RefreshOutcome)
    (hc : st.access_token.getD "" ≠ "") (hv : now < st.token_expires - 60) :
    get_access_token st now r = ⟨st.access_token, st, false⟩ := by
  unfold get_access_token
  rw [if_pos ⟨hc, hv⟩]

theorem get_access_token_refresh_only_if (st : TokenState) (now : ℚ) (r : RefreshOutcome)
    (h : (get_access_token st now r).didRefresh = true) :
    ¬ (st.access_token.getD "" ≠ "" ∧ now < st.token_expires - 60) := by
  intro hcond
  rw [get_access_token_cached st now r hcond.1 hcond.2] at h
  simp at h

/-! Helper lemmas about one equal-step subdivision of a closed rational
interval, applied per coordinate by the grid claims. -/

theorem segCover (lo hi : ℚ) (n : ℕ) (hn : 1 ≤ n) (h : lo ≤ hi) (x : ℚ)
    (hx1 : lo ≤ x) (hx2 : x ≤ hi) :
    ∃ r : ℕ, r < n ∧ lo + r * ((hi - lo) / n) ≤ x ∧
      x ≤ lo + r * ((hi - lo) / n) + (hi - lo) / n := by
  set s : ℚ := (hi - lo) / n with hs_def
  have hn0 : (0 : ℚ) < n := by exact_mod_cast hn
  have hns : (n : ℚ) * s = hi - lo := by
    rw [hs_def]
    field_simp
  have hs : 0 ≤ s := div_nonneg (by linarith) hn0.le
  by_cases hs0 : s = 0
  · refine ⟨0, hn, by simpa using hx1, ?_⟩
    have hhi : hi = lo := by
      have := hns
      rw [hs0] at this
      linarith [this]
    rw [hs0]
    simp
    linarith [hhi ▸ hx2]
  · have hspos : 0 < s := lt_of_le_of_ne hs (Ne.symm hs0)
    set k : ℤ := ⌊(x - lo) / s⌋ with hk_def
    have hk0 : 0 ≤ k := Int.floor_nonneg.mpr (div_nonneg (by linarith) hspos.le)
    by_cases hkn : k < (n : ℤ)
    · refine ⟨k.toNat, by omega, ?_, ?_⟩
      · have hfl : (k : ℚ) ≤ (x - lo) / s := Int.floor_le _
        have : (k : ℚ) * s ≤ x - lo := by
          rw [← le_div_iff₀ hspos] at *
          exact hfl
        have hcast : ((k.toNat : ℕ) : ℚ) = (k : ℚ) := by
          exact_mod_cast Int.toNat_of_nonneg hk0
        rw [hcast]
        linarith
      · have hfl : (x - lo) / s < (k : ℚ) + 1 := Int.lt_floor_add_one _
        have : x - lo < ((k : ℚ) + 1) * s := by
          rw [div_lt_iff₀ hspos] at hfl
          linarith [hfl]
        have hcast : ((k.toNat : ℕ) : ℚ) = (k : ℚ) := by
          exact_mod_cast Int.toNat_of_nonneg hk0
        rw [hcast]
        linarith
    · push_neg at hkn
      have hge : ((n : ℤ) : ℚ) ≤ (x - lo) / s := by
        refine le_trans ?_ (Int.floor_le _)
        exact_mod_cast hkn
      have hxhi : hi ≤ x := by
        rw [le_div_iff₀ hspos] at hge
        push_cast at hge
        linarith [hns, hge]
      have hx_eq : x = hi := le_antisymm hx2 hxhi
      refine ⟨n - 1, by omega, ?_, ?_⟩
      · have hcast : (((n - 1 : ℕ)) : ℚ) = (n : ℚ) - 1 := by
          have : (1 : ℕ) ≤ n := hn
          push_cast [this]
          ring
        rw [hcast, hx_eq]
        nlinarith [hns, hspos]
      · have hcast : (((n - 1 : ℕ)) : ℚ) = (n : ℚ) - 1 := by
          have : (1 : ℕ) ≤ n := hn
          push_cast [this]
          ring
        rw [hcast, hx_eq]
        nlinarith [hns]

theorem segSub (lo hi : ℚ) (n : ℕ) (hn : 1 ≤ n) (h : lo ≤ hi) (r : ℕ) (hr : r < n) (x : ℚ)
    (hx1 : lo + r * ((hi - lo) / n) ≤ x)
    (hx2 : x ≤ lo + r * ((hi - lo) / n) + (hi - lo) / n) :
    lo ≤ x ∧ x ≤ hi := by
  have hn0 : (0 : ℚ) < n := by exact_mod_cast hn
  have hns : (n : ℚ) * ((hi - lo) / n) = hi - lo := by field_simp
  have hs : 0 ≤ (hi - lo) / n := div_nonneg (by linarith) hn0.le
  have hr0 : (0 : ℚ) ≤ r := by positivity
  have hr1 : ((r : ℚ) + 1) ≤ (n : ℚ) := by exact_mod_cast hr
  constructor
  · nlinarith
  · nlinarith [mul_le_mul_of_nonneg_right hr1 hs]

theorem segDisjoint (lo hi : ℚ) (n : ℕ) (hn : 1 ≤ n) (h : lo ≤ hi) (r r' : ℕ) (hne : r ≠ r')
    (x : ℚ) :
    ¬ ((lo + r * ((hi - lo) / n) < x ∧ x < lo + r * ((hi - lo) / n) + (hi - lo) / n) ∧
       (lo + r' * ((hi - lo) / n) < x ∧ x < lo + r' * ((hi - lo) / n) + (hi - lo) / n)) := by
  have hn0 : (0 : ℚ) < n := by exact_mod_cast hn
  have hs : 0 ≤ (hi - lo) / n := div_nonneg (by linarith) hn0.le
  rintro ⟨⟨ha1, ha2⟩, ⟨hb1, hb2⟩⟩
  rcases Nat.lt_or_ge r r' with hlt | hge
  · have hr1 : ((r : ℚ) + 1) ≤ (r' : ℚ) := by exact_mod_cast hlt
    nlinarith [mul_le_mul_of_nonneg_right hr1 hs]
  · have hlt' : r' < r := by omega
    have hr1 : ((r' : ℚ) + 1) ≤ (r : ℚ) := by exact_mod_cast hlt'
    nlinarith [mul_le_mul_of_nonneg_right hr1 hs]

/-! The claims. -/

/-- C1, counterexample: the claim says a record whose detailsReference is
absent is kept by the merge and appears in the normalized output with a
synthesized id; on the code, recNoRef (no reference, coordinates present,
line name "5") is dropped by the merge loop (app.py line 184 requires a
truthy ref) and the output is empty. -/
theorem C1_counterexample :
    refOf recNoRef = "" ∧ recNoRef.latitude = some 1 ∧ recNoRef.longitude = some 2 ∧
    lineName recNoRef = "5" ∧ mergeVehicles [recNoRef] = [] ∧
    processedVehicles [recNoRef] = [] := by decide

/-- C1, amended: every raw record whose detailsReference is absent or empty
is dropped by the merge step — it never appears among the merged raw
vehicles, and every normalized output vehicle carries a non-empty id (its
reference), so the synthesized line+coordinate id is never produced by
fetch_positions. -/
theorem C1_empty_ref_dropped (vehs : List RawVehicle) (v : RawVehicle)
    (hv : refOf v = "") :
    v ∉ rawVehiclesOf vehs ∧ ∀ u ∈ processedVehicles vehs, u.id ≠ "" := by
  constructor
  · intro hmem
    rcases List.mem_map.mp hmem with ⟨p, hp, rfl⟩
    exact (merge_entry_spec vehs p hp).2.2 hv
  · intro u hu
    simp only [processedVehicles, rawVehiclesOf] at hu
    rcases List.mem_filterMap.mp hu with ⟨w, hw, hn⟩
    rcases List.mem_map.mp hw with ⟨p, hp, rfl⟩
    have hspec := merge_entry_spec vehs p hp
    rw [normalizeRecord_id p.2 u hn hspec.2.2]
    exact hspec.2.2

/-- C1, witness: the amended claim applied at recNoRef. -/
theorem C1_witness :
    refOf recNoRef = "" ∧
    (recNoRef ∉ rawVehiclesOf [recNoRef] ∧
      ∀ u ∈ processedVehicles [recNoRef], u.id ≠ "") :=
  ⟨by decide, C1_empty_ref_dropped [recNoRef] recNoRef (by decide)⟩

/-- C2: for every record list and every non-empty reference, the merged
dict has pairwise distinct keys (exactly one entry per distinct non-empty
reference), and the entry stored under a reference is the first record of
the input carrying that reference. -/
theorem C2_merge_dedup (vehs : List RawVehicle) (r : String) (hr : r ≠ "") :
    ((mergeVehicles vehs).map Prod.fst).Nodup ∧
    (mergeVehicles vehs).lookup r = vehs.find? (fun v => refOf v == r) ∧
    ((∃ v ∈ vehs, refOf v = r) →
      ∃ w, vehs.find? (fun v => refOf v == r) = some w ∧
        (mergeVehicles vehs).lookup r = some w) := by
  refine ⟨merge_keys_nodup vehs, merge_lookup_eq_find vehs r hr, ?_⟩
  rintro ⟨v, hv, hvr⟩
  have hsome : (vehs.find? (fun v => refOf v == r)).isSome := by
    rw [List.find?_isSome]
    exact ⟨v, hv, by simp [hvr]⟩
  rcases Option.isSome_iff_exists.mp hsome with ⟨w, hw⟩
  exact ⟨w, hw, (merge_lookup_eq_find vehs r hr).trans hw⟩

/-- C2, witness: the dedup claim applied to a list with a duplicated
reference "A". -/
theorem C2_witness :
    ("A" : String) ≠ "" ∧
    (((mergeVehicles [recA, recA2, recB]).map Prod.fst).Nodup ∧
     (mergeVehicles [recA, recA2, recB]).lookup "A" =
       [recA, recA2, recB].find? (fun v => refOf v == "A") ∧
     ((∃ v ∈ [recA, recA2, recB], refOf v = "A") →
       ∃ w, [recA, recA2, recB].find? (fun v => refOf v == "A") = some w ∧
         (mergeVehicles [recA, recA2, recB]).lookup "A" = some w)) :=
  ⟨by decide, C2_merge_dedup [recA, recA2, recB] "A" (by decide)⟩

/-- C3: when all three upstream attempts fail (HTTP 429 or a transient
exception), fetch_cell makes exactly 3 attempts, returns the empty record
list (no exception escapes: the function is total and absorbs the error
outcomes), and the sleeps performed are 0.3×1 and 0.3×2 seconds between
the attempts, plus a final 0.3×3 sleep exactly when the last failure was a
429 (the rate-limit branch sleeps before re-testing the loop bound). -/
theorem C3_retry_bound (outcomes : ℕ → AttemptOutcome)
    (h : ∀ i < 3, (outcomes i).isFailure = true) :
    (fetch_cell outcomes).1 = [] ∧ (fetch_cell outcomes).2.1 = 3 ∧
    (fetch_cell outcomes).2.2 =
      [3/10 * 1, 3/10 * 2] ++
        (if outcomes 2 = AttemptOutcome.rateLimited then [3/10 * 3] else []) := by
  have h0 := h 0 (by norm_num)
  have h1 := h 1 (by norm_num)
  have h2 := h 2 (by norm_num)
  cases o0 : outcomes 0 <;> cases o1 : outcomes 1 <;> cases o2 : outcomes 2 <;>
      simp_all [fetch_cell, fetchCellGo, AttemptOutcome.isFailure] <;> norm_num

/-- C3, witness: the retry bound applied to persistently rate-limited
outcomes. -/
theorem C3_witness :
    (∀ i < 3, ((fun _ => AttemptOutcome.rateLimited) i).isFailure = true) ∧
    ((fetch_cell (fun _ => AttemptOutcome.rateLimited)).1 = [] ∧
     (fetch_cell (fun _ => AttemptOutcome.rateLimited)).2.1 = 3 ∧
     (fetch_cell (fun _ => AttemptOutcome.rateLimited)).2.2 =
       [3/10 * 1, 3/10 * 2] ++
         (if (fun _ => AttemptOutcome.rateLimited) 2 = AttemptOutcome.rateLimited
          then [3/10 * 3] else [])) :=
  ⟨by decide, C3_retry_bound _ (by decide)⟩

/-- C4: normalization drops exactly the records missing latitude, missing
longitude, or with an empty or missing line name; the output is never
longer than the input; every output vehicle has a non-empty line name and
comes from a record with both coordinates present. -/
theorem C4_normalization_filter (vehs : List RawVehicle) :
    (vehs.filterMap normalizeRecord).length ≤ vehs.length ∧
    (∀ v ∈ vehs, normalizeRecord v = none ↔
      (v.latitude = none ∨ v.longitude = none ∨ lineName v = "")) ∧
    (∀ u ∈ vehs.filterMap normalizeRecord, u.line ≠ "") ∧
    (∀ u ∈ vehs.filterMap normalizeRecord, ∃ v ∈ vehs,
      normalizeRecord v = some u ∧ v.latitude ≠ none ∧ v.longitude ≠ none ∧
        lineName v ≠ "") := by
  refine ⟨List.length_filterMap_le _ _, fun v _ => normalizeRecord_eq_none_iff v, ?_, ?_⟩
  · intro u hu
    rcases List.mem_filterMap.mp hu with ⟨v, _, hn⟩
    exact normalizeRecord_line_ne v u hn
  · intro u hu
    rcases List.mem_filterMap.mp hu with ⟨v, hv, hn⟩
    have hs := normalizeRecord_some_spec v u hn
    exact ⟨v, hv, hn, hs.2.2.2.2.2.2.1, hs.2.2.2.2.2.2.2, hs.2.1⟩

/-- C5, counterexample: the claim says the foreground color falls back to
the FALLBACK_COLORS table keyed by the derived type; on the code a tram
record without colors normalizes with fgColor "#ffffff" while the table's
tram entry is "#0074BF". -/
theorem C5_counterexample :
    (normalizeRecord recTramNoColors).map Vehicle.type = some "tram" ∧
    (normalizeRecord recTramNoColors).map Vehicle.fgColor = some "#ffffff" ∧
    dictGetD FALLBACK_COLORS "tram" "#E4002B" = "#0074BF" ∧
    ("#ffffff" : String) ≠ "#0074BF" := by decide

/-- C5, amended: for every kept record, the background color is the
record's backgroundColor when present and otherwise the FALLBACK_COLORS
entry for the derived type (with default "#E4002B" for a type absent from
the table), while the foreground color is the record's foregroundColor
when present and otherwise the constant "#ffffff", independent of the
type. -/
theorem C5_colors (v : RawVehicle) (u : Vehicle) (h : normalizeRecord v = some u) :
    u.color = (lineOf v).backgroundColor.getD (dictGetD FALLBACK_COLORS u.type "#E4002B") ∧
    u.fgColor = (lineOf v).foregroundColor.getD "#ffffff" := by
  have hs := normalizeRecord_some_spec v u h
  exact ⟨hs.2.2.2.1, hs.2.2.2.2.1⟩

/-- C5, witness: the color rule applied to the colorless tram record. -/
theorem C5_witness :
    normalizeRecord recTramNoColors = some vehTramNoColors ∧
    (vehTramNoColors.color =
       (lineOf recTramNoColors).backgroundColor.getD
         (dictGetD FALLBACK_COLORS vehTramNoColors.type "#E4002B") ∧
     vehTramNoColors.fgColor =
       (lineOf recTramNoColors).foregroundColor.getD "#ffffff") :=
  ⟨rfl, C5_colors recTramNoColors vehTramNoColors rfl⟩

/-- C6: a get_access_token call made while the cached token is truthy and
expires more than 60 seconds later returns that cached token with the
state unchanged and performs no network refresh; a refresh is performed
only when no valid cached token exists; hence two consecutive calls whose
second falls inside the validity window of the first call's resulting
state trigger at most one refresh in total. -/
theorem C6_token_reuse (st : TokenState) (now now2 : ℚ) (r r2 : RefreshOutcome)
    (hc : (get_access_token st now r).state.access_token.getD "" ≠ "")
    (hv : now2 < (get_access_token st now r).state.token_expires - 60) :
    get_access_token (get_access_token st now r).state now2 r2 =
      ⟨(get_access_token st now r).state.access_token,
        (get_access_token st now r).state, false⟩ ∧
    ((if (get_access_token st now r).didRefresh then 1 else 0) +
        (if (get_access_token (get_access_token st now r).state now2 r2).didRefresh
          then 1 else 0) ≤ 1) ∧
    (∀ (st' : TokenState) (n' : ℚ) (r' : RefreshOutcome),
      (get_access_token st' n' r').didRefresh = true →
      ¬ (st'.access_token.getD "" ≠ "" ∧ n' < st'.token_expires - 60)) := by
  have hsecond := get_access_token_cached (get_access_token st now r).state now2 r2 hc hv
  refine ⟨hsecond, ?_, fun st' n' r' => get_access_token_refresh_only_if st' n' r'⟩
  rw [hsecond]
  split <;> simp

/-- C6, witness: token reuse applied to a cached token valid for far
longer than 60 seconds. -/
theorem C6_witness :
    ((get_access_token ⟨some "tok", 1000⟩ 0 .failure).state.access_token.getD "" ≠ "") ∧
    ((10 : ℚ) < (get_access_token ⟨some "tok", 1000⟩ 0 .failure).state.token_expires - 60) ∧
    (get_access_token (get_access_token ⟨some "tok", 1000⟩ 0 .failure).state 10 .failure =
       ⟨(get_access_token ⟨some "tok", 1000⟩ 0 .failure).state.access_token,
         (get_access_token ⟨some "tok", 1000⟩ 0 .failure).state, false⟩ ∧
     ((if (get_access_token ⟨some "tok", 1000⟩ 0 .failure).didRefresh then 1 else 0) +
         (if (get_access_token (get_access_token ⟨some "tok", 1000⟩ 0 .failure).state
               10 .failure).didRefresh then 1 else 0) ≤ 1) ∧
     (∀ (st' : TokenState) (n' : ℚ) (r' : RefreshOutcome),
       (get_access_token st' n' r').didRefresh = true →
       ¬ (st'.access_token.getD "" ≠ "" ∧ n' < st'.token_expires - 60))) := by
  have hcall : get_access_token ⟨some "tok", 1000⟩ 0 .failure =
      ⟨some "tok", ⟨some "tok", 1000⟩, false⟩ :=
    get_access_token_cached _ 0 _ (by decide) (by norm_num)
  have h1 : (get_access_token ⟨some "tok", 1000⟩ 0 .failure).state.access_token.getD ""
      ≠ "" := by
    rw [hcall]
    decide
  have h2 : (10 : ℚ) <
      (get_access_token ⟨some "tok", 1000⟩ 0 .failure).state.token_expires - 60 := by
    rw [hcall]
    norm_num
  exact ⟨h1, h2, C6_token_reuse _ _ _ _ _ h1 h2⟩

/-- C7: when no token has ever been obtained (the cached token is None)
and the refresh fails, fetch_positions returns before publishing: the
cached vehicle list, fetch timestamp and count are exactly what they were
before the call. -/
theorem C7_no_token_noop (tokenSt : TokenState) (now : ℚ) (cellResults : List RawVehicle)
    (fetchTime : ℚ) (cache : CacheState) (hnone : tokenSt.access_token = none) :
    (fetch_positions tokenSt now .failure cellResults fetchTime cache).1 = cache := by
  simp [fetch_positions, get_access_token, hnone]

/-- C7, witness: the no-op cycle applied to a concrete never-authenticated
state. -/
theorem C7_witness :
    (⟨none, 0⟩ : TokenState).access_token = none ∧
    (fetch_positions ⟨none, 0⟩ 5 .failure [recA] 6 ⟨[], 0, 0⟩).1 = ⟨[], 0, 0⟩ :=
  ⟨rfl, C7_no_token_noop ⟨none, 0⟩ 5 [recA] 6 ⟨[], 0, 0⟩ rfl⟩

/-- C8: for every bounding box (with ordered bounds) and every grid size
n ≥ 1, the n×n closed cells cover the box exactly — every point of the
box lies in some cell and every cell lies inside the box — and cells with
distinct indices have disjoint interiors (closed cells necessarily share
their boundary edges), all under exact rational arithmetic. -/
theorem C8_grid_partition (lowerLat upperLat lowerLon upperLon : ℚ) (n : ℕ)
    (hn : 1 ≤ n) (hlat : lowerLat ≤ upperLat) (hlon : lowerLon ≤ upperLon) :
    (∀ lat lon, inBBox lowerLat upperLat lowerLon upperLon lat lon →
      ∃ row col, row < n ∧ col < n ∧
        inCell lowerLat upperLat lowerLon upperLon n row col lat lon) ∧
    (∀ row col, row < n → col < n → ∀ lat lon,
      inCell lowerLat upperLat lowerLon upperLon n row col lat lon →
      inBBox lowerLat upperLat lowerLon upperLon lat lon) ∧
    (∀ row col row' col', (row, col) ≠ (row', col') → ∀ lat lon,
      ¬ (inCellInterior lowerLat upperLat lowerLon upperLon n row col lat lon ∧
         inCellInterior lowerLat upperLat lowerLon upperLon n row' col' lat lon)) := by
  refine ⟨?_, ?_, ?_⟩
  · simp only [inBBox, inCell, latStep, lonStep]
    rintro lat lon ⟨h1, h2, h3, h4⟩
    rcases segCover lowerLat upperLat n hn hlat lat h1 h2 with ⟨row, hrow, hr1, hr2⟩
    rcases segCover lowerLon upperLon n hn hlon lon h3 h4 with ⟨col, hcol, hc1, hc2⟩
    exact ⟨row, col, hrow, hcol, hr1, hr2, hc1, hc2⟩
  · simp only [inBBox, inCell, latStep, lonStep]
    rintro row col hrow hcol lat lon ⟨h1, h2, h3, h4⟩
    have hlat' := segSub lowerLat upperLat n hn hlat row hrow lat h1 h2
    have hlon' := segSub lowerLon upperLon n hn hlon col hcol lon h3 h4
    exact ⟨hlat'.1, hlat'.2, hlon'.1, hlon'.2⟩
  · simp only [inCellInterior, latStep, lonStep]
    rintro row col row' col' hne lat lon ⟨⟨a1, a2, a3, a4⟩, ⟨b1, b2, b3, b4⟩⟩
    by_cases hrr : row = row'
    · have hcc : col ≠ col' := by
        intro hcc
        exact hne (by rw [hrr, hcc])
      exact segDisjoint lowerLon upperLon n hn hlon col col' hcc lon
        ⟨⟨a3, a4⟩, ⟨b3, b4⟩⟩
    · exact segDisjoint lowerLat upperLat n hn hlat row row' hrr lat
        ⟨⟨a1, a2⟩, ⟨b1, b2⟩⟩

/-- C8, witness: the partition property at the app's Gothenburg box and
its 4×4 grid. -/
theorem C8_witness :
    1 ≤ GRID_SIZE ∧ GBG_LOWER_LAT ≤ GBG_UPPER_LAT ∧ GBG_LOWER_LON ≤ GBG_UPPER_LON ∧
    ((∀ lat lon, inBBox GBG_LOWER_LAT GBG_UPPER_LAT GBG_LOWER_LON GBG_UPPER_LON lat lon →
       ∃ row col, row < GRID_SIZE ∧ col < GRID_SIZE ∧
         inCell GBG_LOWER_LAT GBG_UPPER_LAT GBG_LOWER_LON GBG_UPPER_LON GRID_SIZE
           row col lat lon) ∧
     (∀ row col, row < GRID_SIZE → col < GRID_SIZE → ∀ lat lon,
       inCell GBG_LOWER_LAT GBG_UPPER_LAT GBG_LOWER_LON GBG_UPPER_LON GRID_SIZE
         row col lat lon →
       inBBox GBG_LOWER_LAT GBG_UPPER_LAT GBG_LOWER_LON GBG_UPPER_LON lat lon) ∧
     (∀ row col row' col', (row, col) ≠ (row', col') → ∀ lat lon,
       ¬ (inCellInterior GBG_LOWER_LAT GBG_UPPER_LAT GBG_LOWER_LON GBG_UPPER_LON
            GRID_SIZE row col lat lon ∧
          inCellInterior GBG_LOWER_LAT GBG_UPPER_LAT GBG_LOWER_LON GBG_UPPER_LON
            GRID_SIZE row' col' lat lon))) := by
  have h1 : 1 ≤ GRID_SIZE := by norm_num [GRID_SIZE]
  have h2 : GBG_LOWER_LAT ≤ GBG_UPPER_LAT := by norm_num [GBG_LOWER_LAT, GBG_UPPER_LAT]
  have h3 : GBG_LOWER_LON ≤ GBG_UPPER_LON := by norm_num [GBG_LOWER_LON, GBG_UPPER_LON]
  exact ⟨h1, h2, h3, C8_grid_partition GBG_LOWER_LAT GBG_UPPER_LAT GBG_LOWER_LON
    GBG_UPPER_LON GRID_SIZE h1 h2 h3⟩

/-- C10: in every output of the merge/normalize pipeline the vehicle ids
are pairwise distinct, and each id is the non-empty detailsReference of
some input record. -/
theorem C10_snapshot_ids (vehs : List RawVehicle) :
    ((processedVehicles vehs).map Vehicle.id).Nodup ∧
    ∀ u ∈ processedVehicles vehs, u.id ≠ "" ∧ ∃ v ∈ vehs, refOf v = u.id := by
  constructor
  · have hsub := filterMap_ids_sublist (mergeVehicles vehs) (fun p hp =>
      ⟨((merge_entry_spec vehs p hp).2.1).symm, by
        have h := merge_entry_spec vehs p hp
        rw [h.2.1]
        exact h.2.2⟩)
    exact hsub.nodup (merge_keys_nodup vehs)
  · intro u hu
    simp only [processedVehicles, rawVehiclesOf] at hu
    rcases List.mem_filterMap.mp hu with ⟨w, hw, hn⟩
    rcases List.mem_map.mp hw with ⟨p, hp, rfl⟩
    have hspec := merge_entry_spec vehs p hp
    have hid := normalizeRecord_id p.2 u hn hspec.2.2
    refine ⟨by rw [hid]; exact hspec.2.2, p.2, hspec.1, hid.symm⟩

end VTrafmap
